import Mathlib

/-!
Verification development for the ralfinho repository (a Go program that
repeatedly invokes an external coding-agent subprocess, watches its JSONL
output for a completion marker, supports interactive interruption, and renders
a terminal dashboard).

The Go sources are shallowly embedded: pure functions become Lean functions;
stateful methods become explicit state-passing functions; the iteration loop
becomes a fuel-indexed recursion; library boundaries (the JSON decoder,
subprocess execution, the terminal rune-width table, wall-clock time) become
explicit function parameters (oracles).  Go strings are modelled as lists of
characters, Go byte lengths and byte slicing are approximated at character
level where the affected strings are purely presentational.
-/

set_option linter.unusedVariables false

namespace Ralfinho

/-- Go strings, modelled as lists of characters. -/
abbrev Str := List Char

/-- Opaque wall-clock instants (time.Time); only passed through, never inspected. -/
abbrev Time := Nat

/-! ### String utilities shared by several components -/

/-- Whether the string s starts with the pattern pat
(Go: strings.HasPrefix(s, pat)). -/
def leadsWith : Str → Str → Bool
  | [], _ => true
  | _ :: _, [] => false
  | p :: ps, c :: cs => p == c && leadsWith ps cs

/-- Substring containment: goContains pat s is Go strings.Contains(s, pat). -/
def goContains (pat : Str) : Str → Bool
  | [] => leadsWith pat []
  | c :: rest => leadsWith pat (c :: rest) || goContains pat rest

theorem leadsWith_iff (pat : Str) : ∀ s, leadsWith pat s = true ↔ ∃ rest, s = pat ++ rest := by
  induction pat with
  | nil =>
    intro s
    simp [leadsWith]
  | cons p ps ih =>
    intro s
    cases s with
    | nil => simp [leadsWith]
    | cons c cs =>
      simp only [leadsWith, Bool.and_eq_true, beq_iff_eq, ih, List.cons_append,
        List.cons.injEq]
      constructor
      · rintro ⟨hpc, rest, hrest⟩
        exact ⟨rest, hpc.symm, hrest⟩
      · rintro ⟨rest, hcp, hrest⟩
        exact ⟨hcp.symm, rest, hrest⟩

theorem goContains_iff (pat : Str) :
    ∀ s, goContains pat s = true ↔ ∃ pre post, s = pre ++ pat ++ post := by
  intro s
  induction s with
  | nil =>
    simp only [goContains, leadsWith_iff]
    constructor
    · rintro ⟨rest, hrest⟩
      exact ⟨[], rest, by simpa using hrest⟩
    · rintro ⟨pre, post, h⟩
      rcases List.append_eq_nil.mp (List.append_eq_nil.mp h.symm).1 with ⟨h1, h2⟩
      exact ⟨post, by simp [h2, ← (List.append_eq_nil.mp h.symm).2]⟩
  | cons c cs ih =>
    simp only [goContains, Bool.or_eq_true, leadsWith_iff, ih]
    constructor
    · rintro (⟨rest, hrest⟩ | ⟨pre, post, h⟩)
      · exact ⟨[], rest, by simpa using hrest⟩
      · exact ⟨c :: pre, post, by simp [h]⟩
    · rintro ⟨pre, post, h⟩
      cases pre with
      | nil => exact Or.inl ⟨post, by simpa using h⟩
      | cons c₂ pre₂ =>
        exact Or.inr ⟨pre₂, post, (List.cons.inj (by simpa using h)).2⟩

/-- Splitting on a separator character; always returns at least one piece
(Go: strings.Split(s, string(sep))). -/
def splitOnChar (sep : Char) : Str → List Str
  | [] => [[]]
  | c :: rest =>
    if c == sep then [] :: splitOnChar sep rest
    else
      match splitOnChar sep rest with
      | h :: t => (c :: h) :: t
      | [] => [[c]]

/-- Drop one trailing carriage return (the behaviour of bufio.ScanLines). -/
def dropCR (s : Str) : Str := if s.getLast? = some '\r' then s.dropLast else s

/-- The sequence of lines a bufio.Scanner with ScanLines yields for the text:
split on newline, no empty final token after a trailing newline, and a
trailing carriage return is stripped from each line.  (The scanner's 64KiB
maximum token size is not modelled.) -/
def goLines (raw : Str) : List Str :=
  if raw = [] then []
  else
    let parts := splitOnChar '\n' raw
    let parts := if raw.getLast? = some '\n' then parts.dropLast else parts
    parts.map dropCR

/-- Lowercasing a string character by character (Go: strings.ToLower;
non-ASCII simple case mappings are approximated by the ASCII mapping). -/
def lowerStr (s : Str) : Str := s.map Char.toLower

/-- Trim leading and trailing whitespace (Go: strings.TrimSpace; the set of
Unicode space characters is approximated by Char.isWhitespace). -/
def trimSpace (s : Str) : Str :=
  ((s.dropWhile Char.isWhitespace).reverse.dropWhile Char.isWhitespace).reverse

/-! ### Runner (src/unnamed/part_009): the iteration/interrupt loop -/

namespace Runner

/-- The fixed completion sentinel (const marker in HasCompletionMarker). -/
def completionMarker : Str := "<promise>COMPLETE</promise>".toList

/-- The instruction heuristic substring skipped by marker detection. -/
def replyWithLit : Str := "reply with:".toList

/-- HasCompletionMarker from src/unnamed/part_009: scan the output line by
line; skip a line whose lowercased text contains "reply with:"; report true
when a remaining line contains the marker. -/
def HasCompletionMarker (raw : Str) : Bool :=
  (goLines raw).any fun line =>
    if goContains replyWithLit (lowerStr line) then false
    else goContains completionMarker line

/-- Final run status (part_009 Status constants). -/
inductive Status where
  | completed
  | failed
  | interrupted
  | maxIterationsReached
deriving DecidableEq, Repr

/-- One call of cfg.OnIteration (part_009 IterationReport).  The terminal
error is abstracted to whether it was non-nil. -/
structure Report where
  iteration : Nat
  output : Str
  err : Bool
  interrupted : Bool
deriving DecidableEq, Repr

/-- The part of part_009 Config the loop logic observes.  SleepBetween only
parameterizes the sleep oracle and Interrupt/OnInterrupt/OnIteration are
modelled by the Env oracles and the collected report list. -/
structure Config where
  agent : Str
  prompt : Str
  maxIterations : Int
deriving Repr

/-- Result of Run (part_009 Result). -/
structure RunResult where
  iterationsCompleted : Nat
  status : Status
  lastOutput : Str
deriving DecidableEq, Repr

/-- Outcome of one execWithInterrupt call: output, whether execFn returned a
non-nil error, and whether the single-slot interrupt channel fired. -/
structure IterOutcome where
  output : Str
  err : Bool
  interrupted : Bool

/-- Outcome of one sleepWithInterrupt call: normal timer expiry, interrupt
during sleep, or a context error. -/
inductive SleepOutcome where
  | normal
  | interrupted
  | fail

/-- The external world the loop interacts with: exec outcomes indexed by the
iteration number passed to execFn, sleep outcomes indexed by the number of
earlier sleeps, and interrupt decisions indexed by the number of earlier
OnInterrupt calls (none models an OnInterrupt error, some b a (b, nil)
return; a nil OnInterrupt callback behaves as the constant some false). -/
structure Env where
  exec : Nat → Str → Str → IterOutcome
  sleep : Nat → SleepOutcome
  onInterrupt : Nat → Option Bool

/-- Mutable state of the part_009 Run loop, plus the instrumentation indices
for the oracles and the accumulated OnIteration reports. -/
structure LoopSt where
  completed : Nat
  lastOutput : Str
  iteration : Nat
  intIdx : Nat
  sleepIdx : Nat
  reports : List Report

/-- The body of part_009 Run, one pass per unit of fuel.  Returns none when
fuel runs out (the Go loop may not terminate).  Error returns of the Go code
are represented by Status.failed in the result. -/
def runLoop (cfg : Config) (env : Env) : Nat → LoopSt → Option (List Report × RunResult)
  | 0, _ => none
  | fuel + 1, st =>
    if 0 < cfg.maxIterations ∧ cfg.maxIterations ≤ (st.completed : Int) then
      some (st.reports, ⟨st.completed, .maxIterationsReached, st.lastOutput⟩)
    else
      let o := env.exec st.iteration cfg.agent cfg.prompt
      let reports := st.reports ++ [⟨st.iteration, o.output, o.err, o.interrupted⟩]
      if o.interrupted then
        match env.onInterrupt st.intIdx with
        | none => some (reports, ⟨st.completed, .failed, o.output⟩)
        | some false => some (reports, ⟨st.completed, .interrupted, o.output⟩)
        | some true =>
          -- Go: continue — the loop post statement iteration++ still runs.
          runLoop cfg env fuel
            ⟨st.completed, o.output, st.iteration + 1, st.intIdx + 1, st.sleepIdx, reports⟩
      else if o.err then
        some (reports, ⟨st.completed, .failed, o.output⟩)
      else
        let completed := st.completed + 1
        if HasCompletionMarker o.output then
          some (reports, ⟨completed, .completed, o.output⟩)
        else
          match env.sleep st.sleepIdx with
          | .fail => some (reports, ⟨completed, .failed, o.output⟩)
          | .interrupted =>
            match env.onInterrupt st.intIdx with
            | none => some (reports, ⟨completed, .failed, o.output⟩)
            | some false => some (reports, ⟨completed, .interrupted, o.output⟩)
            | some true =>
              runLoop cfg env fuel
                ⟨completed, o.output, st.iteration + 1, st.intIdx + 1, st.sleepIdx + 1, reports⟩
          | .normal =>
            runLoop cfg env fuel
              ⟨completed, o.output, st.iteration + 1, st.intIdx, st.sleepIdx + 1, reports⟩

/-- The initial loop state: completed = 0, lastOutput = "", iteration = 1. -/
def initSt : LoopSt := ⟨0, [], 1, 0, 0, []⟩

/-- Run from part_009: reject a negative MaxIterations before the loop starts,
otherwise enter the loop.  The .error case is the fmt.Errorf("max iterations
must be >= 0") return. -/
def Run (cfg : Config) (env : Env) (fuel : Nat) :
    Except Unit (Option (List Report × RunResult)) :=
  if cfg.maxIterations < 0 then .error ()
  else .ok (runLoop cfg env fuel initSt)

/-- Status projection of a Run outcome. -/
def runStatus? (r : Except Unit (Option (List Report × RunResult))) : Option Status :=
  match r with
  | .ok (some (_, res)) => some res.status
  | _ => none

/-- IterationsCompleted projection of a Run outcome. -/
def runCompleted? (r : Except Unit (Option (List Report × RunResult))) : Option Nat :=
  match r with
  | .ok (some (_, res)) => some res.iterationsCompleted
  | _ => none

/-- Sequence of iteration numbers reported to OnIteration. -/
def runReportNums? (r : Except Unit (Option (List Report × RunResult))) : Option (List Nat) :=
  match r with
  | .ok (some (tr, _)) => some (tr.map Report.iteration)
  | _ => none

/-- Interrupted flags of the reports, in order. -/
def runReportFlags? (r : Except Unit (Option (List Report × RunResult))) : Option (List Bool) :=
  match r with
  | .ok (some (tr, _)) => some (tr.map Report.interrupted)
  | _ => none

/-- The closed hard-coded agent table of ExecOnceStream (part_009): the
executable and argument list per agent name; none is the unknown-agent case. -/
def agentCommand (agent prompt : Str) : Option (Str × List Str) :=
  if agent = "pi".toList then
    some ("pi".toList, ["--mode".toList, "json".toList, prompt])
  else if agent = "claude".toList then
    some ("/home/shigueo/.local/bin/claude".toList,
      ["--dangerously-skip-permissions".toList, "--verbose".toList,
        "--output-format".toList, "stream-json".toList, "-p".toList, prompt])
  else if agent = "codex".toList then
    some ("codex".toList, ["exec".toList, "--full-auto".toList, prompt])
  else none

/-- Error cases of ExecOnceStream that occur before reading any output. -/
inductive ExecErr where
  | unknownAgent (agent : Str)
deriving DecidableEq

/-- ExecOnceStream from part_009, with the subprocess machinery (pipes,
scanner goroutines, line merging) abstracted into the runProc oracle, which
returns the accumulated combined output and whether cmd.Wait errored.  The
unknown-agent check happens before the subprocess is consulted. -/
def ExecOnceStream (runProc : Str → List Str → Str × Bool)
    (agent prompt : Str) : Except ExecErr (Str × Bool) :=
  match agentCommand agent prompt with
  | none => .error (.unknownAgent agent)
  | some (exe, args) => .ok (runProc exe args)

end Runner

/-! ### Output decoder (src/unnamed/part_013, package eventlog) -/

namespace EventLog

/-- A decoded JSON value as seen through map[string]any: a string, an object,
or anything else (number, bool, null, array). -/
inductive JVal where
  | str : Str → JVal
  | obj : List (Str × JVal) → JVal
  | other : JVal

/-- An object's fields; keys are unique after parsing, lookup is by key. -/
abbrev JObj := List (Str × JVal)

/-- Map lookup obj[key]. -/
def lookupKey (obj : JObj) (k : Str) : Option JVal :=
  (obj.find? fun p => p.1 == k).map (·.2)

/-- firstString from part_013: the value of the first candidate key that is
present with a string value, else the empty string. -/
def firstString (obj : JObj) : List Str → Str
  | [] => []
  | k :: rest =>
    match lookupKey obj k with
    | some (.str s) => s
    | _ => firstString obj rest

/-- detectToolName from part_013: try the flat candidate keys, then a nested
object under "tool" with a "name" field. -/
def detectToolName (obj : JObj) : Str :=
  let flat := firstString obj
    ["tool".toList, "tool_name".toList, "toolName".toList, "name".toList]
  if flat ≠ [] then flat
  else
    match lookupKey obj "tool".toList with
    | some (.obj nested) =>
      let name := firstString nested ["name".toList]
      if name ≠ [] then name else []
    | _ => []

/-- eventlog.Event; Raw keeps the original JSON text of the line. -/
structure Event where
  timestamp : Time := 0
  iteration : Int := 0
  type : Str := []
  role : Str := []
  content : Str := []
  toolName : Str := []
  raw : Option Str := none
deriving DecidableEq, Repr

/-- The body of the ParseOutput scan for one scanned line.  The pc parameter
is the json.Unmarshal-into-map boundary: none models a decode error (the
line is not a JSON object). -/
def parseLine (pc : Str → Option JObj) (iteration : Int) (now : Time)
    (rawLine : Str) : List Event :=
  let line := trimSpace rawLine
  if line = [] then []
  else
    match pc line with
    | none =>
      [{ timestamp := now, iteration := iteration,
         type := "raw_line".toList, content := line }]
    | some obj =>
      let ty := firstString obj ["type".toList, "event".toList, "kind".toList]
      [{ timestamp := now, iteration := iteration,
         type := if ty = [] then "json_event".toList else ty,
         role := firstString obj ["role".toList],
         content := firstString obj ["content".toList, "text".toList, "message".toList],
         toolName := detectToolName obj,
         raw := some line }]

/-- ParseOutput from part_013: scan the raw text line by line and accumulate
the per-line events. -/
def ParseOutput (pc : Str → Option JObj) (raw : Str) (iteration : Int)
    (now : Time) : List Event :=
  (goLines raw).flatMap (parseLine pc iteration now)

end EventLog

/-! ### TUI (src/internal/tui): display events and the dashboard Model -/

namespace TUI

/-- DisplayEvent from src/unnamed/part_008 (package tui).  RawArgs keeps the
raw JSON text of the tool arguments (json.RawMessage). -/
structure DisplayEvent where
  type : Str := []
  summary : Str := []
  detail : Str := []
  timestamp : Time := 0
  iteration : Int := 0
  toolCallID : Str := []
  toolName : Str := []
  rawArgs : Option Str := none
  toolResultText : Str := []
  toolIsError : Bool := false
deriving DecidableEq, Repr

/-- The state of the two-pane Model of src/internal/tui/model.go, restricted
to the fields its transition functions read or write.  The event channel,
converter, spinner, start time, result pointer and the float paneRatio (used
only by the render helpers) are omitted; focusedPane is 0 = stream,
1 = detail. -/
structure Model where
  events : List DisplayEvent := []
  cursor : Nat := 0
  detailScroll : Nat := 0
  streamScroll : Nat := 0
  width : Nat := 0
  height : Nat := 0
  focusedPane : Nat := 0
  rawMode : Bool := false
  running : Bool := false
  status : Str := []
  autoScroll : Bool := false
  confirmQuit : Bool := false
  confirmCtrlC : Bool := false
  modelName : Str := []
  iteration : Int := 0
deriving DecidableEq, Repr

/-- usableHeight from model.go. -/
def Model.usableHeight (m : Model) : Nat := m.height - 2

/-- paneHeight from model.go (clamped below at 3). -/
def Model.paneHeight (m : Model) : Nat :=
  let h := m.usableHeight - 2
  if h < 3 then 3 else h

/-- ensureStreamCursorVisible from model.go: clamp streamScroll so the cursor
row is inside the stream pane. -/
def ensureStreamCursorVisible (m : Model) : Model :=
  let streamH := m.paneHeight - 1
  if streamH = 0 then m
  else
    let m := if m.cursor < m.streamScroll then { m with streamScroll := m.cursor } else m
    if m.streamScroll + streamH ≤ m.cursor then
      { m with streamScroll := m.cursor - streamH + 1 }
    else m

/-- Key names as Bubble Tea reports them (msg.String()). -/
def keyQ : Str := "q".toList
/-- The ctrl+c key name. -/
def keyCtrlC : Str := "ctrl+c".toList
/-- The y key name. -/
def keyY : Str := "y".toList

/-- handleKey from model.go.  The returned Bool is whether tea.Quit was
issued. -/
def handleKey (m : Model) (key : Str) : Model × Bool :=
  -- Handle quit confirmation state.
  if m.confirmQuit then
    if m.confirmCtrlC && key == keyCtrlC then (m, true)
    else if !m.confirmCtrlC && key == keyY then (m, true)
    else ({ m with confirmQuit := false }, false)
  else if key == keyQ then
    ({ m with confirmQuit := true, confirmCtrlC := false }, false)
  else if key == keyCtrlC then
    ({ m with confirmQuit := true, confirmCtrlC := true }, false)
  else if key == "j".toList || key == "down".toList then
    if m.focusedPane = 0 ∧ 0 < m.events.length then
      let m :=
        if m.cursor < m.events.length - 1 then
          { m with cursor := m.cursor + 1, detailScroll := 0 }
        else m
      let m := { m with autoScroll := decide (m.events.length - 1 ≤ m.cursor) }
      (ensureStreamCursorVisible m, false)
    else if m.focusedPane = 1 then ({ m with detailScroll := m.detailScroll + 1 }, false)
    else (m, false)
  else if key == "k".toList || key == "up".toList then
    if m.focusedPane = 0 then
      let m :=
        if 0 < m.cursor then { m with cursor := m.cursor - 1, detailScroll := 0 } else m
      let m := { m with autoScroll := false }
      (ensureStreamCursorVisible m, false)
    else if m.focusedPane = 1 then
      (if 0 < m.detailScroll then { m with detailScroll := m.detailScroll - 1 } else m, false)
    else (m, false)
  else if key == "g".toList then
    if m.focusedPane = 0 then
      ({ m with cursor := 0, streamScroll := 0, detailScroll := 0, autoScroll := false }, false)
    else (m, false)
  else if key == "G".toList then
    if m.focusedPane = 0 ∧ 0 < m.events.length then
      (ensureStreamCursorVisible
        { m with cursor := m.events.length - 1, detailScroll := 0, autoScroll := true }, false)
    else (m, false)
  else if key == "ctrl+d".toList then
    let pageSize := m.paneHeight / 2
    let pageSize := if pageSize < 1 then 1 else pageSize
    ({ m with detailScroll := m.detailScroll + pageSize }, false)
  else if key == "ctrl+u".toList then
    let pageSize := m.paneHeight / 2
    let pageSize := if pageSize < 1 then 1 else pageSize
    -- Go subtracts then clamps below at 0; Nat subtraction does the same.
    ({ m with detailScroll := m.detailScroll - pageSize }, false)
  else if key == "tab".toList then
    ({ m with focusedPane := (m.focusedPane + 1) % 2 }, false)
  else if key == "r".toList then
    ({ m with rawMode := !m.rawMode }, false)
  else (m, false)

/-- The assistant-text display event type tag. -/
def assistantTextT : Str := "assistant_text".toList

/-- The iteration-boundary display event type tag. -/
def iterationT : Str := "iteration".toList

/-- Decimal rendering of a Go int. -/
def intToStr (i : Int) : Str := (toString i).toList

/-- The status-bar and header update at iteration boundaries, the first block
of addDisplayEvent in model.go. -/
def bumpIteration (m : Model) (de : DisplayEvent) : Model :=
  if de.type == iterationT && m.running then
    { m with iteration := de.iteration,
             status := "Iteration #".toList ++ intToStr de.iteration }
  else m

/-- The model-name extraction of addDisplayEvent in model.go: pull the text
between the first "(" and the following ")" out of an assistant-text
summary.  (Go indexes bytes; for these summaries indices are character
positions as well.) -/
def extractModelName (m : Model) (de : DisplayEvent) : Model :=
  if de.type == assistantTextT && de.summary ≠ [] then
    match de.summary.findIdx? (· == '(') with
    | none => m
    | some start =>
      match (de.summary.drop start).findIdx? (· == ')') with
      | none => m
      | some e =>
        let name := (de.summary.drop (start + 1)).take (e - 1)
        if name ≠ [] then { m with modelName := name } else m
  else m

/-- The append path of addDisplayEvent: push the event and, when auto-follow
is on, snap the cursor to the new last element and reset the detail scroll. -/
def appendEvent (m : Model) (de : DisplayEvent) : Model :=
  let m := { m with events := m.events ++ [de] }
  if m.autoScroll then
    ensureStreamCursorVisible
      { m with cursor := m.events.length - 1, detailScroll := 0 }
  else m

/-- addDisplayEvent from model.go: status/iteration upkeep, model-name
extraction, then either merge an assistant-text event into the last list
entry (same type and iteration) or append it. -/
def addDisplayEvent (m : Model) (de : DisplayEvent) : Model :=
  let m := bumpIteration m de
  let m := extractModelName m de
  match m.events.getLast? with
  | some last =>
    if de.type == assistantTextT && last.type == assistantTextT
        && last.iteration == de.iteration then
      { m with events := m.events.dropLast ++
          [{ last with summary := de.summary, detail := de.detail,
                       timestamp := de.timestamp }] }
    else appendEvent m de
  | none => appendEvent m de

end TUI

/-! ### Event converter (src/unnamed/part_008): runner events to display events -/

namespace Converter

/-- runner.Event (src/unnamed/part_010), the JSONL envelope.  Raw payloads
(json.RawMessage) are kept as raw text; Type is kept as a plain string so
unknown tags are representable.  Fields Convert never reads (version,
partialResult, messages) are omitted. -/
structure Ev where
  type : Str := []
  id : Str := []
  timestamp : Str := []
  cwd : Str := []
  message : Option Str := none
  assistantMessageEvent : Option Str := none
  toolCallID : Str := []
  toolName : Str := []
  args : Option Str := none
  result : Option Str := none
  isError : Option Bool := none
deriving DecidableEq, Repr

/-- runner.MessageEnvelope as Convert consumes it. -/
structure MessageEnvelope where
  role : Str := []
  content : Option Str := none
  model : Str := []
deriving DecidableEq, Repr

/-- runner.AssistantEvent as Convert consumes it. -/
structure AssistantEvent where
  type : Str := []
  delta : Str := []
deriving DecidableEq, Repr

/-- runner.ContentBlock. -/
structure ContentBlock where
  type : Str := []
  text : Str := []
deriving DecidableEq, Repr

/-- The json.Unmarshal boundary for the nested payloads Convert decodes.
envelope is total because Convert ignores the error there (a failed decode
leaves the zero value, possibly partially filled — the oracle returns
whatever the struct holds afterwards); the others return none on a decode
error. -/
structure Codec where
  envelope : Str → MessageEnvelope
  assistantEvent : Str → Option AssistantEvent
  contentBlocks : Str → Option (List ContentBlock)
  contentString : Str → Option Str
  toolArgs : Str → Option Str

/-- The envelope Convert sees for a message_start event: the zero value when
ev.Message is nil, otherwise whatever json.Unmarshal leaves in the struct
(the error is discarded). -/
def envelopeOf (k : Codec) (ev : Ev) : MessageEnvelope :=
  match ev.message with
  | some raw => k.envelope raw
  | none => {}

/-- EventConverter state (part_008). -/
structure St where
  iteration : Int := 0
  assistantText : Str := []
  thinkingText : Str := []
  currentModel : Str := []
  inAssistant : Bool := false
  inThinking : Bool := false
deriving DecidableEq, Repr

/-- Go len() of a string in bytes: the UTF-8 size of the character list. -/
def goLen (s : Str) : Nat := s.foldl (fun n c => n + c.utf8Size) 0

/-- truncateStr from part_008 (newlines replaced by spaces, then cut with an
ellipsis; Go's byte-based length/slicing is approximated at character
level — the results are purely presentational). -/
def truncateStr (s : Str) (n : Nat) : Str :=
  let s := s.map fun c => if c == '\n' then ' ' else c
  if s.length ≤ n then s
  else if n < 4 then s.take n
  else s.take (n - 3) ++ "...".toList

/-- parse of fmt.Sscanf(id, "iteration-%d", &n): the literal prefix, an
optional sign, then at least one decimal digit (trailing text is ignored,
as Sscanf does). -/
def parseIterationId (id : Str) : Option Int :=
  if leadsWith "iteration-".toList id then
    let rest := id.drop ("iteration-".toList).length
    let digitsVal : Str → Option Nat := fun s =>
      let ds := s.takeWhile Char.isDigit
      if ds = [] then none
      else some (ds.foldl (fun n c => n * 10 + (c.toNat - 48)) 0)
    match rest with
    | '-' :: rest2 => (digitsVal rest2).map fun n => -(n : Int)
    | '+' :: rest2 => (digitsVal rest2).map fun n => (n : Int)
    | _ => (digitsVal rest).map fun n => (n : Int)
  else none

/-- MakeIterationEvent from part_008. -/
def MakeIterationEvent (now : Time) (n : Int) : TUI.DisplayEvent :=
  { type := "iteration".toList,
    summary := "═══ Iteration ".toList ++ TUI.intToStr n ++ " ═══".toList,
    detail := "Starting iteration ".toList ++ TUI.intToStr n,
    timestamp := now, iteration := n }

/-- The event-type tags Convert switches on.  EventIteration is referenced by
Convert and the Runner but its declaration is outside the provided sources;
its value "iteration" is fixed by the "iteration-%d" IDs the Runner emits
and the "iteration" display-event type. -/
def knownTypes : List Str :=
  ["session".toList, "message_start".toList, "message_update".toList,
   "message_end".toList, "tool_execution_start".toList,
   "tool_execution_end".toList, "turn_end".toList, "agent_end".toList,
   "iteration".toList]

/-- Convert from part_008: turn one runner event into the updated converter
state and zero or more display events.  now stands for the time.Now() call
at the top of Convert. -/
def Convert (k : Codec) (now : Time) (c : St) (ev : Ev) :
    St × List TUI.DisplayEvent :=
  if ev.type = "session".toList then
    let id := if 12 < ev.id.length then ev.id.take 12 else ev.id
    (c, [{ type := "session".toList,
           summary := "📡 Session ".toList ++ id,
           detail := "Session ID: ".toList ++ ev.id ++ "\nTimestamp: ".toList ++
             ev.timestamp ++ "\nCWD: ".toList ++ ev.cwd,
           timestamp := now, iteration := c.iteration }])
  else if ev.type = "message_start".toList then
    let msg := envelopeOf k ev
    if msg.role = "user".toList then
      let detail := "User message".toList
      let detail := match msg.content with
        | none => detail
        | some raw =>
          match k.contentBlocks raw with
          | some blocks =>
            let parts := (blocks.filter fun b => b.text ≠ []).map ContentBlock.text
            if parts ≠ [] then (parts.intersperse "\n".toList).flatten else detail
          | none =>
            match k.contentString raw with
            | some s => if s ≠ [] then s else detail
            | none => detail
      (c, [{ type := "user_msg".toList, summary := "→ User message".toList,
             detail := detail, timestamp := now, iteration := c.iteration }])
    else if msg.role = "assistant".toList then
      let model := if msg.model = [] then "unknown".toList else msg.model
      let c := { c with currentModel := model, assistantText := [], inAssistant := true }
      (c, [{ type := "assistant_text".toList,
             summary := "← Assistant (".toList ++ model ++ ")".toList,
             detail := [], timestamp := now, iteration := c.iteration }])
    else (c, [])
  else if ev.type = "message_update".toList then
    match ev.assistantMessageEvent with
    | none => (c, [])
    | some raw =>
      match k.assistantEvent raw with
      | none => (c, [])
      | some ae =>
        if ae.type = "text_delta".toList then
          let c := { c with assistantText := c.assistantText ++ ae.delta }
          let text := c.assistantText
          (c, [{ type := "assistant_text".toList,
                 summary := "← Assistant (".toList ++ c.currentModel ++ ") [".toList ++
                   TUI.intToStr (goLen text) ++ " chars]".toList,
                 detail := text, timestamp := now, iteration := c.iteration }])
        else if ae.type = "thinking_delta".toList then
          ({ c with thinkingText := c.thinkingText ++ ae.delta, inThinking := true }, [])
        else if ae.type = "thinking_end".toList then
          if c.inThinking then
            let text := c.thinkingText
            let c := { c with inThinking := false, thinkingText := [] }
            let summary :=
              if 60 < goLen text then
                "💭 Thinking (".toList ++ TUI.intToStr (goLen text) ++ " chars)".toList
              else "💭 Thinking".toList
            (c, [{ type := "thinking".toList, summary := summary, detail := text,
                   timestamp := now, iteration := c.iteration }])
          else (c, [])
        else if ae.type = "thinking_start".toList then
          ({ c with thinkingText := [], inThinking := true }, [])
        else (c, [])
  else if ev.type = "message_end".toList then
    if c.inAssistant then
      let c := { c with inAssistant := false }
      let text := c.assistantText
      if text ≠ [] then
        (c, [{ type := "assistant_text".toList,
               summary := "✓ Assistant text (".toList ++ TUI.intToStr (goLen text) ++
                 " chars)".toList,
               detail := text, timestamp := now, iteration := c.iteration }])
      else (c, [])
    else (c, [])
  else if ev.type = "tool_execution_start".toList then
    let argsSummary := match ev.args with
      | none => []
      | some raw =>
        match k.toolArgs raw with
        | some cmd => if cmd ≠ [] then cmd else truncateStr raw 80
        | none => truncateStr raw 80
    let summary :=
      if argsSummary ≠ [] then
        "⚙ ".toList ++ ev.toolName ++ ": ".toList ++ truncateStr argsSummary 60
      else "⚙ ".toList ++ ev.toolName
    let detail := "Tool: ".toList ++ ev.toolName ++ "\nCall ID: ".toList ++ ev.toolCallID
    let detail :=
      if argsSummary ≠ [] then detail ++ "\nArgs: ".toList ++ argsSummary else detail
    (c, [{ type := "tool_start".toList, summary := summary, detail := detail,
           timestamp := now, iteration := c.iteration,
           toolCallID := ev.toolCallID, toolName := ev.toolName, rawArgs := ev.args }])
  else if ev.type = "tool_execution_end".toList then
    let isErr := ev.isError = some true
    let summary :=
      if isErr then "✗ ".toList ++ ev.toolName ++ " error".toList
      else "✓ ".toList ++ ev.toolName ++ " done".toList
    let detail := "Tool: ".toList ++ ev.toolName ++ "\nCall ID: ".toList ++
      ev.toolCallID ++ "\nError: ".toList ++
      (if isErr then "true".toList else "false".toList)
    let resultText := match ev.result with | some r => r | none => []
    let detail := match ev.result with
      | some r => detail ++ "\nResult:\n".toList ++ r
      | none => detail
    (c, [{ type := "tool_end".toList, summary := summary, detail := detail,
           timestamp := now, iteration := c.iteration,
           toolCallID := ev.toolCallID, toolName := ev.toolName,
           toolResultText := resultText, toolIsError := isErr }])
  else if ev.type = "turn_end".toList then
    (c, [{ type := "turn_end".toList, summary := "── turn end ──".toList,
           detail := "Turn completed.".toList, timestamp := now,
           iteration := c.iteration }])
  else if ev.type = "agent_end".toList then
    (c, [{ type := "agent_end".toList, summary := "── agent end ──".toList,
           detail := "Agent process ended.".toList, timestamp := now,
           iteration := c.iteration }])
  else if ev.type = "iteration".toList then
    let c := match parseIterationId ev.id with
      | some n => { c with iteration := n }
      | none => c
    (c, [MakeIterationEvent now c.iteration])
  else (c, [])

end Converter

/-! ### Main-view block builder (src/unnamed/part_007, richer three-pane tui) -/

namespace MainView

/-- BlockKind from the part_007 blocks file. -/
inductive BlockKind where
  | iteration
  | assistantText
  | thinking
  | toolCall
  | info
deriving DecidableEq, Repr

/-- MainBlock; unset fields default to the Go zero values. -/
structure MainBlock where
  kind : BlockKind
  iteration : Int := 0
  text : Str := []
  toolName : Str := []
  toolCallID : Str := []
  toolArgs : Str := []
  toolResult : Str := []
  toolDone : Bool := false
  toolError : Bool := false
  thinkingLen : Nat := 0
  infoText : Str := []
deriving DecidableEq, Repr

/-- The slice of the part_007 Model that its buildBlock method reads and
writes: the ordered block list and the active-tool marker (-1 = none). -/
structure MainState where
  blocks : List MainBlock
  activeToolIdx : Int
deriving Repr

/-- Decode of json.Unmarshal(raw, &struct with one string field named f):
none is a decode error (not an object, or the field present with a
non-string value); a missing field leaves the zero value "". -/
def decodeField (v : Option EventLog.JVal) (f : Str) : Option Str :=
  match v with
  | some (.obj fs) =>
    match EventLog.lookupKey fs f with
    | none => some []
    | some (.str s) => some s
    | some _ => none
  | _ => none

/-- formatToolArgs from part_007: a shell tool surfaces its command, file
tools surface their path, anything else falls back to the truncated raw
JSON text (byte-level truncation approximated at character level).  parse
is the json.Unmarshal boundary for the raw argument document. -/
def formatToolArgs (parse : Str → Option EventLog.JVal)
    (toolName : Str) (rawArgs : Option Str) : Str :=
  match rawArgs with
  | none => []
  | some raw =>
    let fallback :=
      let s := raw.map fun c => if c == '\n' then ' ' else c
      if 80 < s.length then s.take 77 ++ "...".toList else s
    if toolName = "bash".toList ∨ toolName = "Bash".toList then
      match decodeField (parse raw) "command".toList with
      | some cmd => if cmd ≠ [] then "$ ".toList ++ cmd else fallback
      | none => fallback
    else if toolName = "read".toList ∨ toolName = "Read".toList
        ∨ toolName = "edit".toList ∨ toolName = "Edit".toList
        ∨ toolName = "write".toList ∨ toolName = "Write".toList then
      match decodeField (parse raw) "path".toList with
      | some path => if path ≠ [] then path else fallback
      | none => fallback
    else fallback

/-- Whether a block is a tool-call block with the given call-id. -/
def matchesTool (cid : Str) (b : MainBlock) : Bool :=
  b.kind == .toolCall && b.toolCallID == cid

/-- Index of the last block matching the call-id — the block the Go backward
for-loop in the tool_end case stops at. -/
def lastToolIdx (cid : Str) : List MainBlock → Option Nat
  | [] => none
  | b :: rest =>
    match lastToolIdx cid rest with
    | some i => some (i + 1)
    | none => if matchesTool cid b then some 0 else none

/-- The tool_end update: scan the blocks backward for the first (hence
overall last) tool-call block with the matching call-id and mark it done;
leave the list unchanged when there is none. -/
def closeLastTool (cid res : Str) (isErr : Bool) (blocks : List MainBlock) :
    List MainBlock :=
  match lastToolIdx cid blocks with
  | none => blocks
  | some i =>
    match blocks[i]? with
    | some b => blocks.set i { b with toolDone := true, toolResult := res, toolError := isErr }
    | none => blocks

/-- buildBlock from part_007: append or update main-view blocks for one
display event. -/
def buildBlock (parse : Str → Option EventLog.JVal)
    (s : MainState) (de : TUI.DisplayEvent) : MainState :=
  if de.type = "iteration".toList then
    { s with blocks := s.blocks ++ [{ kind := .iteration, iteration := de.iteration }] }
  else if de.type = "assistant_text".toList then
    -- Merge with the last assistant-text block for the same iteration.
    match s.blocks.getLast? with
    | some last =>
      if last.kind == .assistantText && last.iteration == de.iteration then
        { s with blocks := s.blocks.dropLast ++ [{ last with text := de.detail }] }
      else
        { s with blocks := s.blocks ++
            [{ kind := .assistantText, iteration := de.iteration, text := de.detail }] }
    | none =>
      { s with blocks := s.blocks ++
          [{ kind := .assistantText, iteration := de.iteration, text := de.detail }] }
  else if de.type = "thinking".toList then
    { s with blocks := s.blocks ++
        [{ kind := .thinking, iteration := de.iteration,
           thinkingLen := Converter.goLen de.detail }] }
  else if de.type = "tool_start".toList then
    let blocks := s.blocks ++
      [{ kind := .toolCall, iteration := de.iteration, toolName := de.toolName,
         toolCallID := de.toolCallID,
         toolArgs := formatToolArgs parse de.toolName de.rawArgs }]
    { blocks := blocks, activeToolIdx := (blocks.length : Int) - 1 }
  else if de.type = "tool_end".toList then
    { blocks := closeLastTool de.toolCallID de.toolResultText de.toolIsError s.blocks,
      activeToolIdx := -1 }
  else if de.type = "info".toList then
    { s with blocks := s.blocks ++ [{ kind := .info, infoText := de.detail }] }
  else
    -- user_msg, turn_end, agent_end, session: skipped.
    s

end MainView

/-! ### Word wrapping (src/internal/tui/wrap.go) -/

namespace Wrap

/-- StringWidth from go-runewidth: the sum of the rune widths.  The rune
width table is the rw oracle (0, 1 or 2 columns per character). -/
def strWidth (rw : Char → Nat) (s : Str) : Nat := s.foldl (fun n c => n + rw c) 0

/-- One rune of the hard-break inner loop of WrapLine: before a rune that
would overflow the chunk, flush the chunk and start a new one with the
rune. -/
def hbStep (rw : Char → Nat) (width : Nat) (acc : List Str × Str × Nat)
    (r : Char) : List Str × Str × Nat :=
  let (res, chunk, chunkW) := acc
  if width < chunkW + rw r then (res ++ [chunk], [r], rw r)
  else (res, chunk ++ [r], chunkW + rw r)

/-- The hard-break inner loop of WrapLine for a single over-long word:
returns the flushed chunks and the leftover chunk with its width. -/
def hardBreak (rw : Char → Nat) (width : Nat) (word : Str) :
    List Str × Str × Nat :=
  word.foldl (hbStep rw width) ([], [], 0)

/-- One step of the word loop of WrapLine, processing word number i. -/
def wrapStep (rw : Char → Nat) (width : Nat)
    (acc : List Str × Str × Nat) (iw : Nat × Str) : List Str × Str × Nat :=
  let (result, cur, curW) := acc
  let (i, word) := iw
  let ww := strWidth rw word
  if width < ww then
    -- Word alone exceeds width: flush, then hard-break it.
    let (result, cur, curW) :=
      if 0 < curW then (result ++ [cur], ([] : Str), 0) else (result, cur, curW)
    let (chunks, chunk, chunkW) := hardBreak rw width word
    (result ++ chunks, chunk, chunkW)
  else
    let sep := if 0 < curW then 1 else 0
    if width < curW + sep + ww then
      (result ++ [cur], word, ww)
    else
      let (cur, curW) :=
        if 0 < i ∧ 0 < curW then (cur ++ [' '], curW + 1) else (cur, curW)
      (result, cur ++ word, curW + ww)

/-- WrapLine from wrap.go: soft-wrap one line at spaces to the target width,
hard-breaking over-long single words.  Go guards width <= 0; widths are
naturals here so the guard is width = 0. -/
def WrapLine (rw : Char → Nat) (line : Str) (width : Nat) : List Str :=
  if width = 0 then [line]
  else if strWidth rw line ≤ width then [line]
  else
    let words := splitOnChar ' ' line
    let (result, cur, curW) := words.enum.foldl (wrapStep rw width) ([], [], 0)
    if 0 < curW then result ++ [cur] else result

/-- WrapText from wrap.go: wrap each existing line and rejoin. -/
def WrapText (rw : Char → Nat) (text : Str) (width : Nat) : Str :=
  if width = 0 then text
  else
    ((splitOnChar '\n' text).flatMap fun line => WrapLine rw line width)
      |>.intersperse "\n".toList |>.flatten

end Wrap

/-! ### Claim theorems -/

namespace Runner

/-- C2: HasCompletionMarker is true exactly when some line of the output
contains the sentinel and that line does not contain "reply with:" after
lowercasing; an instruction line containing both is skipped. -/
theorem hasCompletionMarker_iff (raw : Str) :
    HasCompletionMarker raw = true ↔
    ∃ line ∈ goLines raw,
      (∃ pre post, line = pre ++ completionMarker ++ post) ∧
      ¬ ∃ pre post, lowerStr line = pre ++ replyWithLit ++ post := by
  unfold HasCompletionMarker
  rw [List.any_eq_true]
  refine exists_congr fun line => and_congr_right fun _ => ?_
  rw [← goContains_iff, ← goContains_iff]
  by_cases h : goContains replyWithLit (lowerStr line) <;> simp [h]

/-- Helper for C3: if every exec outcome is clean (not interrupted, no error,
no completion marker) and every sleep expires normally, the loop runs until
the completed count reaches the configured maximum and then reports
max_iterations_reached with exactly that count. -/
theorem runLoop_max (cfg : Config) (env : Env) (m : Nat)
    (hcfg : cfg.maxIterations = (m : Int)) (hm : 0 < m)
    (hexec : ∀ i a p, (env.exec i a p).interrupted = false ∧
      (env.exec i a p).err = false ∧
      HasCompletionMarker (env.exec i a p).output = false)
    (hsleep : ∀ j, env.sleep j = .normal) :
    ∀ fuel st, st.completed ≤ m → m - st.completed < fuel →
      ∃ rep lo, runLoop cfg env fuel st =
        some (rep, ⟨m, .maxIterationsReached, lo⟩) := by
  intro fuel
  induction fuel with
  | zero => intro st _ h; omega
  | succ f ih =>
    rintro ⟨comp, lo, itn, ii, si, reps⟩ hle hfuel
    dsimp only at hle hfuel
    by_cases heq : comp = m
    · subst heq
      refine ⟨reps, lo, ?_⟩
      simp only [runLoop]
      rw [if_pos ⟨by rw [hcfg]; exact_mod_cast hm, by rw [hcfg]⟩]
    · have hlt : comp < m := lt_of_le_of_ne hle heq
      obtain ⟨h1, h2, h3⟩ := hexec itn cfg.agent cfg.prompt
      simp only [runLoop]
      rw [if_neg (by rw [hcfg]; intro h; exact absurd (by exact_mod_cast h.2) (not_le.mpr hlt))]
      simp only [h1, h2, h3, hsleep, Bool.false_eq_true, if_false]
      refine ih _ ?_ ?_
      · show comp + 1 ≤ m
        omega
      · show m - (comp + 1) < f
        omega

/-- C3: a run with maximum iteration count m greater than zero whose
iterations are never interrupted, never fail, and never produce a completion
marker (and whose sleeps are undisturbed) ends with status
max_iterations_reached and exactly m completed iterations. -/
theorem run_max_iterations (cfg : Config) (env : Env) (m fuel : Nat)
    (hcfg : cfg.maxIterations = (m : Int)) (hm : 0 < m)
    (hexec : ∀ i a p, (env.exec i a p).interrupted = false ∧
      (env.exec i a p).err = false ∧
      HasCompletionMarker (env.exec i a p).output = false)
    (hsleep : ∀ j, env.sleep j = .normal)
    (hfuel : m < fuel) :
    runStatus? (Run cfg env fuel) = some .maxIterationsReached ∧
    runCompleted? (Run cfg env fuel) = some m := by
  have hneg : ¬ cfg.maxIterations < 0 := by rw [hcfg]; omega
  obtain ⟨rep, lo, hrun⟩ :=
    runLoop_max cfg env m hcfg hm hexec hsleep fuel initSt (Nat.zero_le m)
      (by simpa [initSt] using hfuel)
  unfold Run
  rw [if_neg hneg]
  simp [runStatus?, runCompleted?, hrun]

/-- A run environment whose iterations are clean and never complete. -/
def envQuiet : Env :=
  ⟨fun _ _ _ => ⟨"still running".toList, false, false⟩,
   fun _ => .normal, fun _ => some false⟩

/-- Witness for C3: max-iterations 1, a single clean marker-free iteration. -/
theorem run_max_iterations_witness :
    runStatus? (Run ⟨"pi".toList, "p".toList, 1⟩ envQuiet 2) =
      some .maxIterationsReached ∧
    runCompleted? (Run ⟨"pi".toList, "p".toList, 1⟩ envQuiet 2) = some 1 := by
  have h : HasCompletionMarker ("still running".toList) = false := by decide
  exact run_max_iterations ⟨"pi".toList, "p".toList, 1⟩ envQuiet 1 2 rfl (by decide)
    (fun i a p => ⟨rfl, rfl, h⟩) (fun _ => rfl) (by decide)

/-- C1 (amended): when the agent execution of the pass at iteration number k
is interrupted and the interrupt decision is continue, the interrupted
attempt is reported once, with sequence number k and the interrupted flag
set, and the completed count is unchanged; the retry, however, proceeds with
iteration number k + 1, not k again (the Go continue statement still runs
the loop's iteration++ post statement). -/
theorem run_interrupt_continue (cfg : Config) (env : Env) (fuel : Nat) (st : LoopSt)
    (hguard : ¬(0 < cfg.maxIterations ∧ cfg.maxIterations ≤ (st.completed : Int)))
    (hint : (env.exec st.iteration cfg.agent cfg.prompt).interrupted = true)
    (hdec : env.onInterrupt st.intIdx = some true) :
    runLoop cfg env (fuel + 1) st =
      runLoop cfg env fuel
        ⟨st.completed, (env.exec st.iteration cfg.agent cfg.prompt).output,
         st.iteration + 1, st.intIdx + 1, st.sleepIdx,
         st.reports ++
           [⟨st.iteration, (env.exec st.iteration cfg.agent cfg.prompt).output,
             (env.exec st.iteration cfg.agent cfg.prompt).err, true⟩]⟩ := by
  simp only [runLoop]
  rw [if_neg hguard]
  simp only [hint, hdec, if_true]

/-- Run environment for the C1 counterexample: iteration 1 is interrupted,
the decision is continue, and the retry completes with the marker. -/
def envRetry : Env :=
  ⟨fun i _ _ =>
      if i = 1 then ⟨"partial".toList, false, true⟩
      else ⟨"done <promise>COMPLETE</promise>".toList, false, false⟩,
   fun _ => .normal, fun _ => some true⟩

/-- Counterexample for C1 as stated: after interrupting iteration 1 and
answering continue, the two OnIteration reports carry iteration numbers 1
and 2 — the same sequence number is not reported twice (the claim demands
[1, 1]); only the completed count behaves as claimed (ending at 1). -/
theorem run_interrupt_renumbers :
    runReportNums? (Run ⟨"pi".toList, "p".toList, 0⟩ envRetry 5) = some [1, 2] ∧
    runReportFlags? (Run ⟨"pi".toList, "p".toList, 0⟩ envRetry 5) =
      some [true, false] ∧
    runCompleted? (Run ⟨"pi".toList, "p".toList, 0⟩ envRetry 5) = some 1 ∧
    ([1, 2] : List Nat) ≠ [1, 1] := by decide

/-- Witness for the amended C1 theorem at a concrete interrupted state. -/
theorem run_interrupt_continue_witness :
    runLoop ⟨"pi".toList, "p".toList, 0⟩ envRetry 5 initSt =
      runLoop ⟨"pi".toList, "p".toList, 0⟩ envRetry 4
        ⟨0, "partial".toList, 2, 1, 0,
         [⟨1, "partial".toList, false, true⟩]⟩ :=
  run_interrupt_continue ⟨"pi".toList, "p".toList, 0⟩ envRetry 4 initSt
    (by decide) (by decide) (by decide)

/-- C8: configuration errors fail fast.  A negative MaxIterations makes Run
return the config error for every environment (so the exec function is never
consulted and no report is made), and an agent name outside the hard-coded
table makes ExecOnceStream return the unknown-agent error for every
subprocess oracle (so no subprocess is started). -/
theorem config_errors_fail_fast :
    (∀ (cfg : Config) (env : Env) (fuel : Nat),
      cfg.maxIterations < 0 → Run cfg env fuel = .error ()) ∧
    (∀ (runProc : Str → List Str → Str × Bool) (agent prompt : Str),
      agent ≠ "pi".toList → agent ≠ "claude".toList → agent ≠ "codex".toList →
      ExecOnceStream runProc agent prompt = .error (.unknownAgent agent)) := by
  constructor
  · intro cfg env fuel h
    unfold Run
    rw [if_pos h]
  · intro runProc agent prompt h1 h2 h3
    unfold ExecOnceStream agentCommand
    rw [if_neg h1, if_neg h2, if_neg h3]

/-- Witness for C8: max-iterations -1 fails fast; agent "cursor" is unknown. -/
theorem config_errors_fail_fast_witness :
    Run ⟨"pi".toList, "p".toList, -1⟩ envQuiet 3 = .error () ∧
    ExecOnceStream (fun _ _ => ([], false)) "cursor".toList "p".toList =
      .error (.unknownAgent "cursor".toList) :=
  ⟨config_errors_fail_fast.1 ⟨"pi".toList, "p".toList, -1⟩ envQuiet 3 (by decide),
   config_errors_fail_fast.2 (fun _ _ => ([], false)) "cursor".toList "p".toList
     (by decide) (by decide) (by decide)⟩

end Runner

namespace EventLog

/-- C4 (amended): decoding is total and per line yields zero events exactly
when the trimmed line is empty and exactly one event otherwise; a line that
is not a JSON object degrades to a raw-line event — whose content is the
whitespace-trimmed input line, not the verbatim line.  ParseOutput is by
construction the concatenation of the per-line results, so no input fails
the caller. -/
theorem parse_output_total (pc : Str → Option JObj) (iteration : Int)
    (now : Time) (line : Str) :
    (trimSpace line = [] → parseLine pc iteration now line = []) ∧
    (trimSpace line ≠ [] → (parseLine pc iteration now line).length = 1) ∧
    (trimSpace line ≠ [] → pc (trimSpace line) = none →
      parseLine pc iteration now line =
        [{ timestamp := now, iteration := iteration,
           type := "raw_line".toList, content := trimSpace line }]) := by
  refine ⟨fun h => by simp [parseLine, h], fun h => ?_, fun h hpc => by simp [parseLine, h, hpc]⟩
  unfold parseLine
  rw [if_neg h]
  cases pc (trimSpace line) <;> simp

/-- Witness for C4: a non-JSON line with surrounding whitespace yields one
raw-line event carrying the trimmed text. -/
theorem parse_output_total_witness :
    parseLine (fun _ => none) 1 0 "  not json ".toList =
      [{ timestamp := 0, iteration := 1, type := "raw_line".toList,
         content := "not json".toList }] :=
  (parse_output_total (fun _ => none) 1 0 "  not json ".toList).2.2
    (by decide) rfl

/-- Counterexample for C4 as stated: ParseOutput on the single line
"  not json " (not valid JSON, not whitespace-only) yields a raw-line event
whose content is the trimmed line "not json", which differs from the input
line — the content is not verbatim. -/
theorem parse_output_trims_raw_line :
    ParseOutput (fun _ => none) "  not json ".toList 1 0 =
      [{ timestamp := 0, iteration := 1, type := "raw_line".toList,
         content := "not json".toList }] ∧
    "not json".toList ≠ "  not json ".toList := by decide

end EventLog

namespace TUI

/-- C5 (amended): quit confirmation is a two-step sub-state.  A first q or
ctrl+c press arms the confirmation, records which key armed it and does not
quit.  While armed, the confirming key is ctrl+c when ctrl+c armed it but y
(not a second q) when q armed it; any key other than the confirming key —
including q itself after q armed it — disarms the confirmation and leaves
the model otherwise unchanged. -/
theorem quit_confirmation :
    (∀ m : Model, m.confirmQuit = false →
      handleKey m keyQ = ({ m with confirmQuit := true, confirmCtrlC := false }, false)) ∧
    (∀ m : Model, m.confirmQuit = false →
      handleKey m keyCtrlC = ({ m with confirmQuit := true, confirmCtrlC := true }, false)) ∧
    (∀ m : Model, m.confirmQuit = true → m.confirmCtrlC = true →
      handleKey m keyCtrlC = (m, true)) ∧
    (∀ m : Model, m.confirmQuit = true → m.confirmCtrlC = false →
      handleKey m keyY = (m, true)) ∧
    (∀ (m : Model) (key : Str), m.confirmQuit = true →
      ¬(m.confirmCtrlC = true ∧ key = keyCtrlC) →
      ¬(m.confirmCtrlC = false ∧ key = keyY) →
      handleKey m key = ({ m with confirmQuit := false }, false)) := by
  refine ⟨?_, ?_, ?_, ?_, ?_⟩
  · intro m h
    simp [handleKey, h]
  · intro m h
    have hqc : (keyCtrlC == keyQ) = false := by decide
    simp [handleKey, h, hqc]
  · intro m h hc
    simp [handleKey, h, hc]
  · intro m h hc
    simp [handleKey, h, hc]
  · intro m key h hcc hcy
    by_cases hc : m.confirmCtrlC = true
    · have hk : (key == keyCtrlC) = false := by
        rw [beq_eq_false_iff_ne]
        exact fun hkey => hcc ⟨hc, hkey⟩
      simp [handleKey, h, hc, hk]
    · have hc' : m.confirmCtrlC = false := by
        cases hmc : m.confirmCtrlC
        · rfl
        · exact absurd hmc hc
      have hk : (key == keyY) = false := by
        rw [beq_eq_false_iff_ne]
        exact fun hkey => hcy ⟨hc', hkey⟩
      simp [handleKey, h, hc', hk]

theorem bumpIteration_events (m : Model) (de : DisplayEvent) :
    (bumpIteration m de).events = m.events := by
  unfold bumpIteration
  split <;> rfl

theorem extractModelName_events (m : Model) (de : DisplayEvent) :
    (extractModelName m de).events = m.events := by
  unfold extractModelName
  repeat' split
  all_goals try rfl
  all_goals dsimp only
  all_goals split
  all_goals rfl

theorem ensureStreamCursorVisible_events (m : Model) :
    (ensureStreamCursorVisible m).events = m.events := by
  unfold ensureStreamCursorVisible
  dsimp only
  repeat' split
  all_goals rfl

theorem appendEvent_events (m : Model) (de : DisplayEvent) :
    (appendEvent m de).events = m.events ++ [de] := by
  unfold appendEvent
  dsimp only
  split
  · rw [ensureStreamCursorVisible_events]
  · rfl

/-- C6 (amended): an assistant-text display event merges into — mutates in
place — the most recent list entry exactly when that last entry is itself an
assistant-text entry of the same iteration; otherwise it is appended, so an
intervening event of another type makes a later assistant-text event of the
same iteration open a second entry.  All non-assistant-text events are
appended in arrival order. -/
theorem display_event_merge :
    (∀ (m : Model) (de last : DisplayEvent), de.type = assistantTextT →
      m.events.getLast? = some last → last.type = assistantTextT →
      last.iteration = de.iteration →
      (addDisplayEvent m de).events = m.events.dropLast ++
        [{ last with summary := de.summary, detail := de.detail,
                     timestamp := de.timestamp }]) ∧
    (∀ (m : Model) (de : DisplayEvent), de.type = assistantTextT →
      (∀ last, m.events.getLast? = some last →
        ¬(last.type = assistantTextT ∧ last.iteration = de.iteration)) →
      (addDisplayEvent m de).events = m.events ++ [de]) ∧
    (∀ (m : Model) (de : DisplayEvent), de.type ≠ assistantTextT →
      (addDisplayEvent m de).events = m.events ++ [de]) := by
  refine ⟨?_, ?_, ?_⟩
  · intro m de last ht hlast hlt hli
    unfold addDisplayEvent
    simp only [bumpIteration_events, extractModelName_events, hlast, ht, hlt, hli]
    simp [bumpIteration_events, extractModelName_events]
  · intro m de ht hno
    unfold addDisplayEvent
    simp only [bumpIteration_events, extractModelName_events]
    cases hlast : m.events.getLast? with
    | none => rw [appendEvent_events, extractModelName_events, bumpIteration_events]
    | some last =>
      have hcond : (de.type == assistantTextT && last.type == assistantTextT
          && last.iteration == de.iteration) = false := by
        by_cases h1 : last.type = assistantTextT
        · have h2 : last.iteration ≠ de.iteration := fun h => hno last hlast ⟨h1, h⟩
          simp [ht, h1, h2]
        · simp [ht, h1]
      simp only [hcond, Bool.false_eq_true, if_false]
      rw [appendEvent_events, extractModelName_events, bumpIteration_events]
  · intro m de ht
    unfold addDisplayEvent
    dsimp only
    cases hlast : (extractModelName (bumpIteration m de) de).events.getLast? with
    | none => rw [appendEvent_events, extractModelName_events, bumpIteration_events]
    | some last =>
      have hcond : (de.type == assistantTextT && last.type == assistantTextT
          && last.iteration == de.iteration) = false := by
        simp [ht]
      simp only [hcond, Bool.false_eq_true, if_false]
      rw [appendEvent_events, extractModelName_events, bumpIteration_events]

/-- First assistant-text event of iteration 1. -/
def deText1 : DisplayEvent :=
  { type := "assistant_text".toList, summary := "a".toList,
    detail := "x".toList, iteration := 1 }

/-- A tool-start event arriving between the two text events. -/
def deTool1 : DisplayEvent := { type := "tool_start".toList, iteration := 1 }

/-- Second assistant-text event of the same iteration 1. -/
def deText2 : DisplayEvent :=
  { type := "assistant_text".toList, summary := "a".toList,
    detail := "xy".toList, iteration := 1 }

/-- Counterexample for C6 as stated: delivering assistant-text, tool-start,
assistant-text — all for iteration 1 — leaves two assistant-text entries for
iteration 1 in the event list, because merging only looks at the last
entry. -/
theorem assistant_text_duplicated :
    ((addDisplayEvent (addDisplayEvent (addDisplayEvent ({} : Model) deText1)
        deTool1) deText2).events.countP
      (fun e => e.type == "assistant_text".toList && e.iteration == 1)) = 2 ∧
    (2 : Nat) ≠ 1 := by decide

/-- Witness for the amended C6 theorem: consecutive assistant-text events of
the same iteration merge into a single mutated entry. -/
theorem display_event_merge_witness :
    (addDisplayEvent (addDisplayEvent ({} : Model) deText1) deText2).events =
      [{ deText1 with summary := deText2.summary, detail := deText2.detail,
                      timestamp := deText2.timestamp }] :=
  display_event_merge.1 (addDisplayEvent ({} : Model) deText1) deText2 deText1
    rfl (by decide) rfl rfl

/-- A model state armed by the q key. -/
def armedByQ : Model := { confirmQuit := true, confirmCtrlC := false }

/-- Counterexample for C5 as stated: with the confirmation armed by q, a
second q press does not quit — it disarms the confirmation (the confirming
key for q is y, as the status bar documents). -/
theorem second_q_does_not_quit :
    handleKey armedByQ keyQ = ({ armedByQ with confirmQuit := false }, false) ∧
    (handleKey armedByQ keyQ).2 ≠ true := by decide

/-- Witness for the amended C5 theorem: a disarmed model arms on q without
quitting. -/
theorem quit_confirmation_witness :
    handleKey ({} : Model) keyQ =
      (({ ({} : Model) with confirmQuit := true, confirmCtrlC := false }), false) :=
  quit_confirmation.1 ({} : Model) rfl

end TUI

namespace MainView

theorem lastToolIdx_none_iff (cid : Str) :
    ∀ bs : List MainBlock,
      lastToolIdx cid bs = none ↔ ∀ b ∈ bs, matchesTool cid b = false := by
  intro bs
  induction bs with
  | nil => simp [lastToolIdx]
  | cons b rest ih =>
    cases h : lastToolIdx cid rest with
    | some i =>
      simp only [lastToolIdx, h]
      constructor
      · intro hc
        exact absurd hc (by simp)
      · intro hall
        have : lastToolIdx cid rest = none := (ih.mpr fun b hb => hall b (by simp [hb]))
        rw [this] at h
        exact absurd h (by simp)
    | none =>
      simp only [lastToolIdx, h]
      by_cases hm : matchesTool cid b
      · simp only [hm, if_true]
        constructor
        · intro hc
          exact absurd hc (by simp)
        · intro hall
          exact absurd (hall b (by simp)) (by simp [hm])
      · have hrest := ih.mp h
        simp only [hm, if_false]
        constructor
        · intro _ b' hb'
          rcases List.mem_cons.mp hb' with h1 | h2
          · subst h1
            exact Bool.eq_false_iff.mpr hm
          · exact hrest b' h2
        · intro _
          rfl

theorem lastToolIdx_get (cid : Str) :
    ∀ (bs : List MainBlock) (i : Nat), lastToolIdx cid bs = some i →
      ∃ b, bs[i]? = some b ∧ matchesTool cid b = true := by
  intro bs
  induction bs with
  | nil => simp [lastToolIdx]
  | cons b rest ih =>
    intro i hi
    cases h : lastToolIdx cid rest with
    | some i₀ =>
      rw [lastToolIdx, h] at hi
      obtain ⟨b₀, hb₀, hm₀⟩ := ih i₀ h
      cases hi
      exact ⟨b₀, by simpa using hb₀, hm₀⟩
    | none =>
      rw [lastToolIdx, h] at hi
      by_cases hm : matchesTool cid b
      · rw [if_pos hm] at hi
        cases hi
        exact ⟨b, by simp, hm⟩
      · rw [if_neg hm] at hi
        exact absurd hi (by simp)

theorem lastToolIdx_maximal (cid : Str) :
    ∀ (bs : List MainBlock) (i : Nat), lastToolIdx cid bs = some i →
      ∀ j b, bs[j]? = some b → i < j → matchesTool cid b = false := by
  intro bs
  induction bs with
  | nil => simp [lastToolIdx]
  | cons b rest ih =>
    intro i hi j b' hj hij
    cases h : lastToolIdx cid rest with
    | some i₀ =>
      rw [lastToolIdx, h] at hi
      cases hi
      cases j with
      | zero => omega
      | succ j₀ => exact ih i₀ h j₀ b' (by simpa using hj) (by omega)
    | none =>
      rw [lastToolIdx, h] at hi
      by_cases hm : matchesTool cid b
      · rw [if_pos hm] at hi
        cases hi
        cases j with
        | zero => omega
        | succ j₀ =>
          exact (lastToolIdx_none_iff cid rest).mp h b'
            (List.getElem?_mem (by simpa using hj))
      · rw [if_neg hm] at hi
        exact absurd hi (by simp)

theorem lastToolIdx_complete (cid : Str) :
    ∀ (bs : List MainBlock) (i : Nat) (b : MainBlock), bs[i]? = some b →
      matchesTool cid b = true →
      (∀ j b', bs[j]? = some b' → i < j → matchesTool cid b' = false) →
      lastToolIdx cid bs = some i := by
  intro bs
  induction bs with
  | nil => simp
  | cons hd rest ih =>
    intro i b hb hm hmax
    cases i with
    | zero =>
      have hhd : hd = b := by simpa using hb
      have hnone : lastToolIdx cid rest = none := by
        rw [lastToolIdx_none_iff]
        intro b' hb'
        obtain ⟨j', hj'⟩ := List.mem_iff_getElem?.mp hb'
        exact hmax (j' + 1) b' (by simpa using hj') (by omega)
      rw [lastToolIdx, hnone, hhd, if_pos hm]
    | succ i₀ =>
      have hb' : rest[i₀]? = some b := by simpa using hb
      have hres := ih i₀ b hb' hm fun j b' hj hij =>
        hmax (j + 1) b' (by simpa using hj) (by omega)
      rw [lastToolIdx, hres]

/-- C7: on a tool-execution-end display event with call-id X, buildBlock
clears the active-tool marker in every case; when no block is a tool-call
block with call-id X the block list is unchanged (and nothing crashes); and
when i is the index of the last such block, exactly that block is updated —
done flag set, result text and error flag copied in — while every other
index is untouched. -/
theorem tool_end_update (parse : Str → Option EventLog.JVal)
    (s : MainState) (de : TUI.DisplayEvent)
    (ht : de.type = "tool_end".toList) :
    ((buildBlock parse s de).activeToolIdx = -1) ∧
    ((∀ b ∈ s.blocks, matchesTool de.toolCallID b = false) →
      (buildBlock parse s de).blocks = s.blocks) ∧
    (∀ (i : Nat) (b : MainBlock), s.blocks[i]? = some b →
      matchesTool de.toolCallID b = true →
      (∀ (j : Nat) (b' : MainBlock), s.blocks[j]? = some b' → i < j →
        matchesTool de.toolCallID b' = false) →
      (buildBlock parse s de).blocks[i]? =
        some { b with toolDone := true, toolResult := de.toolResultText,
                      toolError := de.toolIsError } ∧
      ∀ j, j ≠ i → (buildBlock parse s de).blocks[j]? = s.blocks[j]?) := by
  have hbb : buildBlock parse s de =
      { blocks := closeLastTool de.toolCallID de.toolResultText de.toolIsError s.blocks,
        activeToolIdx := -1 } := by
    unfold buildBlock
    rw [ht]
    rw [if_neg (by decide), if_neg (by decide), if_neg (by decide),
      if_neg (by decide), if_pos rfl]
  refine ⟨by rw [hbb], ?_, ?_⟩
  · intro hnone
    rw [hbb]
    show closeLastTool de.toolCallID de.toolResultText de.toolIsError s.blocks = s.blocks
    unfold closeLastTool
    rw [(lastToolIdx_none_iff de.toolCallID s.blocks).mpr hnone]
  · intro i b hb hm hmax
    have hidx := lastToolIdx_complete de.toolCallID s.blocks i b hb hm hmax
    have hclose : closeLastTool de.toolCallID de.toolResultText de.toolIsError s.blocks =
        s.blocks.set i { b with toolDone := true, toolResult := de.toolResultText,
                                toolError := de.toolIsError } := by
      unfold closeLastTool
      rw [hidx]
      dsimp only
      rw [hb]
    rw [hbb]
    constructor
    · show (closeLastTool de.toolCallID de.toolResultText de.toolIsError s.blocks)[i]? = _
      rw [hclose]
      obtain ⟨hilen, -⟩ := List.getElem?_eq_some_iff.mp hb
      exact List.getElem?_set_self hilen
    · intro j hj
      show (closeLastTool de.toolCallID de.toolResultText de.toolIsError s.blocks)[j]? = _
      rw [hclose]
      exact List.getElem?_set_ne (Ne.symm hj)

/-- A block list with two tool-call blocks sharing call-id "c1" and an
unrelated info block. -/
def blocksFix : List MainBlock :=
  [{ kind := .toolCall, toolCallID := "c1".toList, toolName := "bash".toList },
   { kind := .info, infoText := "note".toList },
   { kind := .toolCall, toolCallID := "c1".toList, toolName := "read".toList }]

/-- The tool-end display event closing call-id "c1". -/
def deEnd : TUI.DisplayEvent :=
  { type := "tool_end".toList, toolCallID := "c1".toList,
    toolResultText := "ok".toList, toolIsError := false }

/-- Witness for C7: closing call-id "c1" over blocksFix updates exactly the
later matching block (index 2), leaves indices 0 and 1 untouched, and clears
the active-tool marker. -/
theorem tool_end_update_witness :
    (buildBlock (fun _ => none) ⟨blocksFix, 0⟩ deEnd).activeToolIdx = -1 ∧
    (buildBlock (fun _ => none) ⟨blocksFix, 0⟩ deEnd).blocks[2]? =
      some { kind := .toolCall, toolCallID := "c1".toList, toolName := "read".toList,
             toolDone := true, toolResult := "ok".toList, toolError := false } ∧
    (buildBlock (fun _ => none) ⟨blocksFix, 0⟩ deEnd).blocks[0]? = blocksFix[0]? := by
  have h := tool_end_update (fun _ => none) ⟨blocksFix, 0⟩ deEnd rfl
  have hmax : ∀ (j : Nat) (b' : MainBlock),
      (MainState.mk blocksFix 0).blocks[j]? = some b' → 2 < j →
      matchesTool deEnd.toolCallID b' = false := by
    intro j b' hj hlt
    have hn : blocksFix[j]? = none := List.getElem?_eq_none (by simp [blocksFix]; omega)
    rw [show (MainState.mk blocksFix 0).blocks = blocksFix from rfl, hn] at hj
    cases hj
  obtain ⟨hupd, hothers⟩ := h.2.2 2
    { kind := .toolCall, toolCallID := "c1".toList, toolName := "read".toList }
    (by decide) (by decide) hmax
  exact ⟨h.1, hupd, hothers 0 (by decide)⟩

end MainView

namespace Wrap

theorem strWidth_aux (rw : Char → Nat) :
    ∀ (s : Str) (n : Nat), s.foldl (fun n c => n + rw c) n = n + strWidth rw s := by
  intro s
  induction s with
  | nil => intro n; simp [strWidth]
  | cons c s ih =>
    intro n
    show s.foldl (fun n c => n + rw c) (n + rw c) = n + strWidth rw (c :: s)
    rw [ih, show strWidth rw (c :: s) = s.foldl (fun n c => n + rw c) (0 + rw c) from rfl,
      ih]
    omega

theorem strWidth_cons (rw : Char → Nat) (c : Char) (s : Str) :
    strWidth rw (c :: s) = rw c + strWidth rw s := by
  show s.foldl (fun n c => n + rw c) (0 + rw c) = rw c + strWidth rw s
  rw [strWidth_aux]
  omega

theorem strWidth_append (rw : Char → Nat) (a b : Str) :
    strWidth rw (a ++ b) = strWidth rw a + strWidth rw b := by
  induction a with
  | nil => simp [strWidth]
  | cons c a ih => rw [List.cons_append, strWidth_cons, ih, strWidth_cons]; omega

theorem hardBreak_aux (rw : Char → Nat) (width : Nat) (hw : ∀ c, rw c ≤ width) :
    ∀ (word : Str) (res : List Str) (chunk : Str) (chunkW : Nat),
      (∀ l ∈ res, strWidth rw l ≤ width) → strWidth rw chunk = chunkW →
      chunkW ≤ width →
      (∀ l ∈ (word.foldl (hbStep rw width) (res, chunk, chunkW)).1,
        strWidth rw l ≤ width) ∧
      strWidth rw (word.foldl (hbStep rw width) (res, chunk, chunkW)).2.1 =
        (word.foldl (hbStep rw width) (res, chunk, chunkW)).2.2 ∧
      (word.foldl (hbStep rw width) (res, chunk, chunkW)).2.2 ≤ width := by
  intro word
  induction word with
  | nil =>
    intro res chunk chunkW h1 h2 h3
    exact ⟨h1, h2, h3⟩
  | cons r word ih =>
    intro res chunk chunkW h1 h2 h3
    rw [List.foldl_cons]
    unfold hbStep
    dsimp only
    by_cases hov : width < chunkW + rw r
    · rw [if_pos hov]
      refine ih (res ++ [chunk]) [r] (rw r) ?_ ?_ (hw r)
      · intro l hl
        rcases List.mem_append.mp hl with hl | hl
        · exact h1 l hl
        · rw [List.mem_singleton.mp hl, h2]
          exact h3
      · rw [strWidth_cons]
        simp [strWidth]
    · rw [if_neg hov]
      refine ih res (chunk ++ [r]) (chunkW + rw r) h1 ?_ (by omega)
      rw [strWidth_append, h2]
      simp [strWidth_cons, strWidth]

theorem wrapStep_aux (rw : Char → Nat) (width : Nat) (hsp : rw ' ' = 1)
    (hw : ∀ c, rw c ≤ width) :
    ∀ (iws : List (Nat × Str)) (res : List Str) (cur : Str) (curW : Nat),
      (∀ l ∈ res, strWidth rw l ≤ width) → strWidth rw cur = curW →
      curW ≤ width →
      (∀ l ∈ (iws.foldl (wrapStep rw width) (res, cur, curW)).1,
        strWidth rw l ≤ width) ∧
      strWidth rw (iws.foldl (wrapStep rw width) (res, cur, curW)).2.1 =
        (iws.foldl (wrapStep rw width) (res, cur, curW)).2.2 ∧
      (iws.foldl (wrapStep rw width) (res, cur, curW)).2.2 ≤ width := by
  intro iws
  induction iws with
  | nil =>
    intro res cur curW h1 h2 h3
    exact ⟨h1, h2, h3⟩
  | cons iw iws ih =>
    intro res cur curW h1 h2 h3
    obtain ⟨i, word⟩ := iw
    rw [List.foldl_cons]
    unfold wrapStep
    dsimp only
    by_cases hbig : width < strWidth rw word
    · rw [if_pos hbig]
      have hflush : ∀ l ∈ (if 0 < curW then (res ++ [cur], ([] : Str), 0)
          else (res, cur, curW)).1, strWidth rw l ≤ width := by
        split
        · intro l hl
          rcases List.mem_append.mp hl with hl | hl
          · exact h1 l hl
          · rw [List.mem_singleton.mp hl]
            omega
        · exact h1
      rcases hhb : hardBreak rw width word with ⟨chunks, chunk, chunkW⟩
      have hb := hardBreak_aux rw width hw word [] [] 0 (by simp) rfl (by omega)
      rw [show word.foldl (hbStep rw width) ([], [], 0) = hardBreak rw width word
        from rfl, hhb] at hb
      obtain ⟨hbres, hbcur, hblt⟩ := hb
      split
      · rename_i hcw
        rw [if_pos hcw] at hflush
        refine ih (res ++ [cur] ++ chunks) chunk chunkW ?_ hbcur hblt
        intro l hl
        rcases List.mem_append.mp hl with hl | hl
        · exact hflush l hl
        · exact hbres l hl
      · rename_i hcw
        rw [if_neg hcw] at hflush
        refine ih (res ++ chunks) chunk chunkW ?_ hbcur hblt
        intro l hl
        rcases List.mem_append.mp hl with hl | hl
        · exact hflush l hl
        · exact hbres l hl
    · rw [if_neg hbig]
      by_cases hfit : width < curW + (if 0 < curW then 1 else 0) + strWidth rw word
      · rw [if_pos hfit]
        refine ih (res ++ [cur]) word (strWidth rw word) ?_ rfl (by omega)
        intro l hl
        rcases List.mem_append.mp hl with hl | hl
        · exact h1 l hl
        · rw [List.mem_singleton.mp hl]
          omega
      · rw [if_neg hfit]
        split
        · rename_i hsep
          refine ih res ((cur ++ [' ']) ++ word) (curW + 1 + strWidth rw word)
            h1 ?_ ?_
          · have hone : strWidth rw [' '] = 1 := by
              rw [strWidth_cons, hsp]
              simp [strWidth]
            rw [strWidth_append, strWidth_append, h2, hone]
          · by_cases hc : 0 < curW
            · simp only [hc, if_true] at hfit
              omega
            · omega
        · refine ih res (cur ++ word) (curW + strWidth rw word) h1 ?_ ?_
          · rw [strWidth_append, h2]
          · by_cases hc : 0 < curW
            · simp only [hc, if_true] at hfit
              omega
            · simp only [hc, if_false] at hfit
              omega

/-- C9 (amended): provided the target width is positive, a space occupies one
column (true of go-runewidth), and no single character is wider than the
target width — in particular whenever width is at least 2, since rune widths
are at most 2 — every line WrapLine returns has display width at most the
target width.  (Without the per-character bound the property fails: with
width 1, a double-width character is emitted on a line of width 2.) -/
theorem wrapLine_width_le (rw : Char → Nat) (line : Str) (width : Nat)
    (hwidth : 0 < width) (hsp : rw ' ' = 1) (hw : ∀ c, rw c ≤ width) :
    ∀ l ∈ WrapLine rw line width, strWidth rw l ≤ width := by
  unfold WrapLine
  rw [if_neg (by omega)]
  by_cases hfit : strWidth rw line ≤ width
  · rw [if_pos hfit]
    intro l hl
    rw [List.mem_singleton.mp hl]
    exact hfit
  · rw [if_neg hfit]
    rcases hfd : (splitOnChar ' ' line).enum.foldl (wrapStep rw width) ([], [], 0)
      with ⟨res, cur, curW⟩
    have hinv := wrapStep_aux rw width hsp hw (splitOnChar ' ' line).enum [] [] 0
      (by simp) rfl (by omega)
    rw [hfd] at hinv
    obtain ⟨hres, hcur, hlt⟩ := hinv
    dsimp only at hres hcur hlt
    dsimp only
    rw [hfd]
    dsimp only
    split
    · intro l hl
      rcases List.mem_append.mp hl with hl | hl
      · exact hres l hl
      · rw [List.mem_singleton.mp hl]
        omega
    · exact hres

/-- A rune-width table giving hiragana its go-runewidth width of 2 and every
other character width 1. -/
def rwWide : Char → Nat := fun c => if c == 'あ' then 2 else 1

/-- Counterexample for C9 as stated: wrapping the two-hiragana line at target
width 1 emits lines of display width 2 (go-runewidth gives hiragana width 2),
so the at-most-the-target-width bound fails for width 1. -/
theorem wrapLine_exceeds_width :
    WrapLine rwWide "ああ".toList 1 = [[], "あ".toList, "あ".toList] ∧
    strWidth rwWide "あ".toList = 2 ∧ ¬(2 ≤ 1) := by decide

/-- Witness for the amended C9 theorem: wrapping "ab cd" at width 2 with a
uniform width-1 table; the first produced line "ab" fits in 2 columns. -/
theorem wrapLine_width_le_witness :
    strWidth (fun _ => 1) "ab".toList ≤ 2 :=
  wrapLine_width_le (fun _ => 1) "ab cd".toList 2 (by decide) rfl
    (fun _ => Nat.le_succ 1) "ab".toList (by decide)

end Wrap

namespace Converter

/-- C10: Convert silently drops what it does not recognize — a message-start
whose decoded role is neither "user" nor "assistant", any event whose type
tag is outside the known set, and a thinking-end with no thinking text in
flight each produce zero display events and leave the converter state
unchanged. -/
theorem convert_drops_unrecognized :
    (∀ (k : Codec) (now : Time) (c : St) (ev : Ev),
      ev.type = "message_start".toList →
      (envelopeOf k ev).role ≠ "user".toList →
      (envelopeOf k ev).role ≠ "assistant".toList →
      Convert k now c ev = (c, [])) ∧
    (∀ (k : Codec) (now : Time) (c : St) (ev : Ev),
      ev.type ∉ knownTypes → Convert k now c ev = (c, [])) ∧
    (∀ (k : Codec) (now : Time) (c : St) (ev : Ev) (raw : Str)
        (ae : AssistantEvent),
      ev.type = "message_update".toList →
      ev.assistantMessageEvent = some raw →
      k.assistantEvent raw = some ae →
      ae.type = "thinking_end".toList →
      c.inThinking = false →
      Convert k now c ev = (c, [])) := by
  refine ⟨?_, ?_, ?_⟩
  · intro k now c ev ht hu ha
    unfold Convert
    rw [if_neg (by rw [ht]; decide), if_pos ht]
    dsimp only
    rw [if_neg hu, if_neg ha]
  · intro k now c ev ht
    simp only [knownTypes, List.mem_cons, List.not_mem_nil, or_false, not_or] at ht
    obtain ⟨h1, h2, h3, h4, h5, h6, h7, h8, h9⟩ := ht
    unfold Convert
    rw [if_neg h1, if_neg h2, if_neg h3, if_neg h4, if_neg h5, if_neg h6,
      if_neg h7, if_neg h8, if_neg h9]
  · intro k now c ev raw ae ht hraw hae haet hin
    unfold Convert
    rw [if_neg (by rw [ht]; decide), if_neg (by rw [ht]; decide), if_pos ht, hraw]
    dsimp only
    rw [hae]
    dsimp only
    rw [if_neg (by rw [haet]; decide), if_neg (by rw [haet]; decide),
      if_pos haet, hin]
    simp

/-- A concrete codec whose assistant-event decode always yields a
thinking-end. -/
def codecThink : Codec :=
  ⟨fun _ => {}, fun _ => some { type := "thinking_end".toList },
   fun _ => none, fun _ => none, fun _ => none⟩

/-- Witness for C10: a message-start with no envelope (role decodes empty), a
turn_start event (not in the converter's known set), and a thinking-end with
no thinking in flight each produce no display event and keep the state. -/
theorem convert_drops_unrecognized_witness :
    Convert codecThink 0 {} { type := "message_start".toList } = ({}, []) ∧
    Convert codecThink 0 {} { type := "turn_start".toList } = ({}, []) ∧
    Convert codecThink 0 {}
      { type := "message_update".toList, assistantMessageEvent := some [] } =
      ({}, []) :=
  ⟨convert_drops_unrecognized.1 codecThink 0 {} { type := "message_start".toList }
      rfl (by decide) (by decide),
   convert_drops_unrecognized.2.1 codecThink 0 {} { type := "turn_start".toList }
      (by decide),
   convert_drops_unrecognized.2.2 codecThink 0 {}
      { type := "message_update".toList, assistantMessageEvent := some [] }
      [] { type := "thinking_end".toList } rfl rfl rfl rfl rfl⟩

end Converter

end Ralfinho
